import Mathlib

/-! Verification of the pathogen key-path / patch-application library.

The development shallowly embeds the library's two layers:

* the path algebra (`KeyPathElement`, `KeyPath`, `KeyPathFrom`, `Change`,
  `ChangeOf`) from `key_path/src/lib.rs` and `pathogen/src/key_path.rs`, and
* the recursive patch-application engine (`patch_keypath` from
  `key_path/src/key_path_mutable.rs` together with the code generated by
  `pathogen_macros/src/keypath_mutable.rs` for structs and enums).

The engine in the source is a family of trait implementations indexed by the
static Rust type of each node.  Here that family is embedded as one recursive
function over a type descriptor `Ty` (playing the role of the Rust static
type) and a universal value tree `Value`.  Rust's in-place mutation through
`&mut` is modelled by explicit state passing: the function returns the value
tree after the call together with an `Outcome`.  Rust panics (out-of-bounds
slice indexing, `Vec::splice` range checks, `expect`) are modelled as the
distinct outcome `Outcome.panicked`, never conflated with the library's
`KeyPathError` results.  Serde (de)serialization is modelled by taking wire
values to live in the same universe `Value`, with `decode` validating a wire
value against the target type descriptor, exactly in the places where the
source calls `serde_json::from_value::<T>`.
-/

namespace Pathogen

/-- Tag-encoding hint `VariantTagType` from `pathogen/src/key_path.rs`. -/
inductive VariantTagType where
  | External
  | Internal
  | Adjacent
  | Untagged
  deriving Repr, DecidableEq

/-- Path element `KeyPathElement` from `pathogen/src/key_path.rs`: a struct field, an enum
variant (with its tag-encoding hint), a vector index, or a map string key. -/
inductive KeyPathElement where
  | Field (key : String)
  | Variant (key : String) (tag : VariantTagType)
  | Index (key : Nat)
  | StringKey (key : String)
  deriving Repr, DecidableEq

/-- Rendering of one element, `Display for KeyPathElement`: a field or variant renders as its name, an
index as `[i]`, a string key as `["k"]`. -/
def KeyPathElement.render : KeyPathElement → String
  | .Field key => key
  | .Variant key _ => key
  | .Index key => "[" ++ toString key ++ "]"
  | .StringKey key => "[\"" ++ key ++ "\"]"

/-- The `matches!(p, Field | Variant)` test in `Display for KeyPathFrom`. -/
def KeyPathElement.isFieldOrVariant : KeyPathElement → Bool
  | .Field _ => true
  | .Variant _ _ => true
  | _ => false

/-- Typed path `KeyPath<Root, Value>` from `pathogen/src/key_path.rs`: an element
sequence with phantom source and destination types (the `Value` type
parameter of the source is called `V` here). -/
structure KeyPath (Root V : Type) where
  path : List KeyPathElement
  deriving Repr, DecidableEq

/-- Constructor `KeyPath::unit`: the empty path. -/
def KeyPath.unit {Root V : Type} : KeyPath Root V := ⟨[]⟩

/-- Composition `KeyPath::appending`: concatenate element sequences. -/
def KeyPath.appending {Root Mid V : Type} (self : KeyPath Root Mid)
    (next : KeyPath Mid V) : KeyPath Root V :=
  ⟨self.path ++ next.path⟩

/-- Origin-typed path `KeyPathFrom<Root>` from `pathogen/src/key_path.rs`: a partially erased
key path retaining only the root type. -/
structure KeyPathFrom (Root : Type) where
  path : List KeyPathElement
  deriving Repr, DecidableEq

/-- Erasure, `From<KeyPath<Root, T>> for KeyPathFrom<Root>`: erase the value type. -/
def KeyPath.erase {Root V : Type} (self : KeyPath Root V) : KeyPathFrom Root :=
  ⟨self.path⟩

/-- Rebasing primitive `KeyPathFrom::prepending`: prefix the base path's elements. -/
def KeyPathFrom.prepending {Root Base : Type} (self : KeyPathFrom Root)
    (keypath : KeyPath Base Root) : KeyPathFrom Base :=
  ⟨keypath.path ++ self.path⟩

/-- Containment test `KeyPathFrom::is_subpath_of`: false when `other` is not longer, else a
position-wise equality test over the zipped element lists. -/
def KeyPathFrom.is_subpath_of {Root : Type} (self other : KeyPathFrom Root) : Bool :=
  if other.path.length ≤ self.path.length then
    false
  else
    (self.path.zip other.path).all fun q => q.1 == q.2

/-- Unchecked re-typing `KeyPathFrom::downcast`: reattach a value type; always succeeds. -/
def KeyPathFrom.downcast {Root V : Type} (self : KeyPathFrom Root) : KeyPath Root V :=
  ⟨self.path⟩

/-- The loop body of `Display for KeyPathFrom`: render each element, writing a
separator dot after any field or variant element that is not the last one. -/
def renderElements : List KeyPathElement → String
  | [] => ""
  | [p] => p.render
  | p :: q :: rest =>
      p.render ++ (if p.isFieldOrVariant then "." else "") ++ renderElements (q :: rest)

/-- Rendering `Display for KeyPathFrom`: a leading dot followed by the rendered
elements. -/
def KeyPathFrom.display {Root : Type} (self : KeyPathFrom Root) : String :=
  "." ++ renderElements self.path

/-- Universal value tree over which the per-type `KeyPathMutable`
implementations of `key_path/src/key_path_mutable.rs` are embedded: scalar
leaves (the `keypath_mutable_impl!` types, collapsed to one opaque scalar
kind), `Vec<T>`, string-keyed `BTreeMap` (association list, first match
wins), `Option<T>`, and the structs and enums whose implementations are
generated by `pathogen_macros/src/keypath_mutable.rs` (an enum value carries
its current runtime case name and that case's data fields).  Wire values
(the payloads of a `Patch`) live in the same universe. -/
inductive Value where
  | prim (n : Int)
  | vec (elems : List Value)
  | map (entries : List (String × Value))
  | opt (o : Option Value)
  | strukt (fields : List (String × Value))
  | enm (variant : String) (fields : List (String × Value))
  deriving Repr

/-- Type descriptor playing the role of the static Rust type that selects the
`KeyPathMutable` trait implementation: a scalar, `Vec<elem>`,
`BTreeMap<String, value>`, `Option<inner>`, a struct with its declared field
list, or an enum with its declared variants and their field lists. -/
inductive Ty where
  | prim
  | vec (elem : Ty)
  | map (value : Ty)
  | opt (inner : Ty)
  | strukt (fields : List (String × Ty))
  | enm (variants : List (String × List (String × Ty)))
  deriving Repr

/-- Look up a declared variant's field list by variant name. -/
def findVariantTys : List (String × List (String × Ty)) → String → Option (List (String × Ty))
  | [], _ => none
  | (n, fts) :: rest, name => if n == name then some fts else findVariantTys rest name

mutual

/-- Model of `serde_json::from_value::<T>`: a wire value decodes at type `t`
iff it is shaped like `t`.  Deserialization itself is an external codec in
the source; this validation captures exactly its success/failure contract. -/
def decode : Ty → Value → Bool
  | .prim, .prim _ => true
  | .vec et, .vec xs => decodeList et xs
  | .map vt, .map es => decodeEntries vt es
  | .opt _, .opt none => true
  | .opt it, .opt (some x) => decode it x
  | .strukt fts, .strukt fs => decodeFields fts fs
  | .enm vars, .enm name fs =>
      match findVariantTys vars name with
      | some fts => decodeFields fts fs
      | none => false
  | _, _ => false
termination_by structural _ v => v

/-- Decode every element of a sequence at the element type. -/
def decodeList : Ty → List Value → Bool
  | _, [] => true
  | et, x :: xs => decode et x && decodeList et xs
termination_by structural _ l => l

/-- Decode every map entry's value at the map's value type. -/
def decodeEntries : Ty → List (String × Value) → Bool
  | _, [] => true
  | vt, (_, v) :: es => decode vt v && decodeEntries vt es
termination_by structural _ l => l

/-- Decode a field list against the declared fields, position-wise. -/
def decodeFields : List (String × Ty) → List (String × Value) → Bool
  | [], [] => true
  | (n, t) :: ts, (m, v) :: vs => n == m && decode t v && decodeFields ts vs
  | _, _ => false
termination_by structural _ l => l

end

/-- Wire-level `Patch` from `key_path/src/lib.rs`: the wire-level operation.  The
`key_path` payload (serialized in the source, ignored by `patch_keypath`) is
kept as its element list. -/
inductive Patch where
  | Splice (key_path : List KeyPathElement) (value : List Value) (start : Nat) (replace : Nat)
  | Update (key_path : List KeyPathElement) (value : Value)
  deriving Repr

/-- Whether a patch is an `Update` (used by the map engine's last-element
test). -/
def Patch.isUpdate : Patch → Bool
  | .Update _ _ => true
  | .Splice _ _ _ _ => false

/-- Error taxonomy `KeyPathError` from `key_path/src/key_path_mutable.rs`.  The `type_name`
diagnostic strings are dropped; the variant/field/key payloads are kept. -/
inductive KeyPathError where
  | CannotMutateNone
  | CannotMutatePrimitiveChildren
  | CannotSpliceType
  | DeserializationError
  | MustMutateEnumVariantWithField (variant : String)
  | MustMutateEnumWithVariant
  | MustMutateStructWithField
  | MustMutateVectorWithIndex
  | MustMutateMapWithStringKey
  | UnknownField (field : String)
  | UnknownStringKey (key : String)
  | UnknownVariantOrField (variant : String) (field : String)
  deriving Repr, DecidableEq

/-- The ways an apply call can abort other than by returning a
`KeyPathError`: a Rust panic from slice/`Vec` indexing or a `Vec::splice`
range check (`indexOutOfBounds`), the `expect` in `apply_change`
(`expectFailure`), or a state unreachable under Rust's static typing, where
the value tree does not inhabit its type descriptor (`illTyped`). -/
inductive PanicKind where
  | indexOutOfBounds
  | expectFailure
  | illTyped
  deriving Repr, DecidableEq

/-- Result of one engine call: `Ok(())`, `Err(e)`, or a panic. -/
inductive Outcome where
  | ok
  | err (e : KeyPathError)
  | panicked (p : PanicKind)
  deriving Repr, DecidableEq

/-- Lookup, `BTreeMap::get`, on the association-list model. -/
def lookupEntry : List (String × Value) → String → Option Value
  | [], _ => none
  | (k, v) :: es, key => if k == key then some v else lookupEntry es key

/-- Upsert, `BTreeMap::insert`, on the association-list model: replace the value in
place when the key is present, append the entry otherwise. -/
def insertEntry : List (String × Value) → String → Value → List (String × Value)
  | [], key, v => [(key, v)]
  | (k, w) :: es, key, v =>
      if k == key then (k, v) :: es else (k, w) :: insertEntry es key v

mutual

/-- The patch-application engine: the union of every `patch_keypath`
implementation in `key_path/src/key_path_mutable.rs` (scalars, `Vec<T>`,
`BTreeMap`, `Option<T>`) and of the code generated for structs and enums by
`pathogen_macros/src/keypath_mutable.rs` (without `direct_dispatch` and
without `skip` attributes), dispatched on the type descriptor exactly as
Rust dispatches on `Self`.  Returns the tree after the call (state passing
for `&mut self`) together with the outcome. -/
def patchKeypath : Ty → Value → List KeyPathElement → Patch → Value × Outcome
  -- keypath_mutable_impl! scalar leaves
  | .prim, v, _ :: _, _ => (v, .err .CannotMutatePrimitiveChildren)
  | .prim, v, [], .Splice _ _ _ _ => (v, .err .CannotSpliceType)
  | .prim, v, [], .Update _ w =>
      if decode .prim w then (w, .ok) else (v, .err .DeserializationError)
  -- impl KeyPathMutable for Vec<T>
  | .vec et, .vec xs, [], .Splice _ w start replace =>
      if decodeList et w then
        -- self.splice(start..(start + replace), replacements): the range
        -- check panics before any element is moved
        if start + replace ≤ xs.length then
          (.vec (xs.take start ++ w ++ xs.drop (start + replace)), .ok)
        else (.vec xs, .panicked .indexOutOfBounds)
      else (.vec xs, .err .DeserializationError)
  | .vec et, .vec xs, [], .Update _ w =>
      if decode (.vec et) w then (w, .ok) else (.vec xs, .err .DeserializationError)
  | .vec et, .vec xs, k :: rest, p =>
      match k with
      | .Index key =>
          if h : key < xs.length then
            let r := patchKeypath et xs[key] rest p
            (.vec (xs.set key r.1), r.2)
          else (.vec xs, .panicked .indexOutOfBounds)
      | _ => (.vec xs, .err .MustMutateVectorWithIndex)
  -- impl KeyPathMutable for BTreeMap<K, V> (string keys; String::from_str
  -- is infallible)
  | .map vt, .map es, [], .Update _ w =>
      if decode (.map vt) w then (w, .ok) else (.map es, .err .DeserializationError)
  | .map _, .map es, [], .Splice _ _ _ _ => (.map es, .err .CannotSpliceType)
  | .map vt, .map es, k :: rest, p =>
      match k with
      | .StringKey key =>
          match rest, p with
          | [], .Update _ w =>
              -- last element and Update: upsert
              if decode vt w then (.map (insertEntry es key w), .ok)
              else (.map es, .err .DeserializationError)
          | _, _ =>
              match lookupEntry es key with
              | some v =>
                  let r := patchKeypath vt v rest p
                  (.map (insertEntry es key r.1), r.2)
              | none => (.map es, .err (.UnknownStringKey key))
      | _ => (.map es, .err .MustMutateMapWithStringKey)
  -- impl KeyPathMutable for Option<T>
  | .opt it, .opt o, k :: rest, p =>
      match o with
      | some inner =>
          let r := patchKeypath it inner (k :: rest) p
          (.opt (some r.1), r.2)
      | none => (.opt none, .err .CannotMutateNone)
  | .opt _, .opt o, [], .Splice _ _ _ _ => (.opt o, .err .CannotSpliceType)
  | .opt it, .opt o, [], .Update _ w =>
      if decode (.opt it) w then (w, .ok) else (.opt o, .err .DeserializationError)
  -- derive(KeyPathMutable) on a struct
  | .strukt fts, .strukt fs, [], .Update _ w =>
      if decode (.strukt fts) w then (w, .ok) else (.strukt fs, .err .DeserializationError)
  | .strukt _, .strukt fs, [], .Splice _ _ _ _ => (.strukt fs, .err .CannotSpliceType)
  | .strukt fts, .strukt fs, k :: rest, p =>
      match k with
      | .Field key =>
          let r := patchStructFields fts fs key rest p
          (.strukt r.1, r.2)
      | _ => (.strukt fs, .err .MustMutateStructWithField)
  -- derive(KeyPathMutable) on an enum (no direct_dispatch)
  | .enm vars, .enm cur curFs, [], .Update _ w =>
      if decode (.enm vars) w then (w, .ok) else (.enm cur curFs, .err .DeserializationError)
  | .enm _, .enm cur curFs, [], .Splice _ _ _ _ => (.enm cur curFs, .err .CannotSpliceType)
  | .enm vars, .enm cur curFs, k0 :: krest, p =>
      match k0 with
      | .Variant variantName _ =>
          match krest with
          | [] =>
              -- the generated code reads keys[1] unconditionally; a
              -- one-element suffix makes that slice access panic
              (.enm cur curFs, .panicked .indexOutOfBounds)
          | k1 :: krest2 =>
              match k1 with
              | .Field fieldName =>
                  let r := patchVariants vars cur curFs variantName fieldName krest2 p
                  (.enm cur r.1, r.2)
              | _ => (.enm cur curFs, .err (.MustMutateEnumVariantWithField variantName))
      | _ => (.enm cur curFs, .err .MustMutateEnumWithVariant)
  -- a tree that does not inhabit its type descriptor is unreachable in Rust
  | _, v, _, _ => (v, .panicked .illTyped)
termination_by structural t _ _ _ => t

/-- The `match self` generated by `derive_enum`: the arm for the current
runtime case checks the path's variant name against the case's name and
dispatches on the field name; data-less cases generate no arm and fall to
the catch-all `UnknownVariantOrField`, as does a variant-name mismatch. -/
def patchVariants :
    List (String × List (String × Ty)) → String → List (String × Value) →
    String → String → List KeyPathElement → Patch → List (String × Value) × Outcome
  | [], _, curFs, _, _, _, _ => (curFs, .panicked .illTyped)
  | (n, fts) :: restVars, cur, curFs, variantName, fieldName, keys2, p =>
      if n == cur then
        if fts.isEmpty then (curFs, .err (.UnknownVariantOrField variantName fieldName))
        else if variantName == cur then
          patchEnumFields fts curFs variantName fieldName keys2 p
        else (curFs, .err (.UnknownVariantOrField variantName fieldName))
      else patchVariants restVars cur curFs variantName fieldName keys2 p
termination_by structural vs _ _ _ _ _ _ => vs

/-- The `match field_name` inside a matched variant arm: recurse into the
addressed field's value with `keys[2..]`; an unknown field name is
`UnknownVariantOrField`. -/
def patchEnumFields :
    List (String × Ty) → List (String × Value) → String → String →
    List KeyPathElement → Patch → List (String × Value) × Outcome
  | [], fs, variantName, fieldName, _, _ =>
      (fs, .err (.UnknownVariantOrField variantName fieldName))
  | _ :: _, [], _, _, _, _ => ([], .panicked .illTyped)
  | (n, t) :: ts, (m, v) :: fs, variantName, fieldName, rest, p =>
      if n == fieldName then
        if m == n then
          let r := patchKeypath t v rest p
          ((m, r.1) :: fs, r.2)
        else ((m, v) :: fs, .panicked .illTyped)
      else
        let r := patchEnumFields ts fs variantName fieldName rest p
        ((m, v) :: r.1, r.2)
termination_by structural tys _ _ _ _ _ => tys

/-- The `match key` generated by `derive_struct`: recurse into the addressed
field's value with `keys[1..]`; an unknown field name is `UnknownField`. -/
def patchStructFields :
    List (String × Ty) → List (String × Value) → String →
    List KeyPathElement → Patch → List (String × Value) × Outcome
  | [], fs, key, _, _ => (fs, .err (.UnknownField key))
  | _ :: _, [], _, _, _ => ([], .panicked .illTyped)
  | (n, t) :: ts, (m, v) :: fs, key, rest, p =>
      if n == key then
        if m == n then
          let r := patchKeypath t v rest p
          ((m, r.1) :: fs, r.2)
        else ((m, v) :: fs, .panicked .illTyped)
      else
        let r := patchStructFields ts fs key rest p
        ((m, v) :: r.1, r.2)
termination_by structural tys _ _ _ _ => tys

end

/-- Partially erased change `ChangeOf<Root>` from `key_path/src/lib.rs`: the partially erased change,
with wire-value payloads. -/
inductive ChangeOf (Root : Type) where
  | Splice (key_path : KeyPathFrom Root) (value : List Value) (start : Nat) (replace : Nat)
  | Update (key_path : KeyPathFrom Root) (value : Value)
  deriving Repr

/-- Accessor `ChangeOf::key_path`. -/
def ChangeOf.key_path {Root : Type} : ChangeOf Root → KeyPathFrom Root
  | .Splice kp _ _ _ => kp
  | .Update kp _ => kp

/-- Conversion `AsPatch for ChangeOf`: forget the root type (the source serializes the
element sequence; here it is kept as elements). -/
def ChangeOf.as_patch {Root : Type} : ChangeOf Root → Patch
  | .Splice kp v s r => .Splice kp.path v s r
  | .Update kp v => .Update kp.path v

/-- Rebasing, `ChangeOf::rebase`: prefix the base path's elements; payload untouched. -/
def ChangeOf.rebase {Root Base : Type} (self : ChangeOf Root)
    (base : KeyPath Base Root) : ChangeOf Base :=
  match self with
  | .Splice kp v s r => .Splice (kp.prepending base) v s r
  | .Update kp v => .Update (kp.prepending base) v

/-- Typed change `Change<Root, T>` from `key_path/src/lib.rs`: the statically typed
change. -/
inductive Change (Root T : Type) where
  | Splice (key_path : KeyPath Root (List T)) (value : List T) (start : Nat) (replace : Nat)
  | Update (key_path : KeyPath Root T) (value : T)

/-- Erasure, `From<Change<Root, T>> for ChangeOf<Root>`: erase the value type and
encode the payload through the external codec `enc` (the source's
`serde_json::to_value`). -/
def Change.toChangeOf {Root T : Type} (enc : T → Value) : Change Root T → ChangeOf Root
  | .Splice kp v s r => .Splice kp.erase (v.map enc) s r
  | .Update kp v => .Update kp.erase (enc v)

/-- The `collect::<Option<Vec<T>>>` in `ChangeOf::downcast`: decode each
wire value, `none` if any element fails. -/
def downcastList {T : Type} (dec : Value → Option T) : List Value → Option (List T)
  | [] => some []
  | v :: vs =>
      match dec v, downcastList dec vs with
      | some x, some xs => some (x :: xs)
      | _, _ => none

/-- Speculative `ChangeOf::downcast`: attempt to decode the payload through the external
codec `dec` (the source's `serde_json::from_value(..).ok()`); `none` on any
decode failure.  Splice payloads are decoded element-wise and collected. -/
def ChangeOf.downcast {Root T : Type} (dec : Value → Option T) :
    ChangeOf Root → Option (Change Root T)
  | .Splice kp v s r =>
      match downcastList dec v with
      | some value => some (.Splice kp.downcast value s r)
      | none => none
  | .Update kp v =>
      match dec v with
      | some value => some (.Update kp.downcast value)
      | none => none

/-- Convenience method `KeyPathMutable::apply_change` (default trait method): forward the
change's path elements and patch to `patch_keypath` and `expect` the result,
i.e. panic on any `KeyPathError`. -/
def apply_change {Root : Type} (t : Ty) (v : Value) (change : ChangeOf Root) :
    Value × Outcome :=
  match patchKeypath t v change.key_path.path change.as_patch with
  | (v', .ok) => (v', .ok)
  | (v', .err _) => (v', .panicked .expectFailure)
  | (v', .panicked pk) => (v', .panicked pk)

/-! Helper lemmas -/

/-- The position-wise equality test over zipped lists, on a strictly shorter
left list, holds exactly when the left list is a strict prefix. -/
theorem zip_all_eq_strict_front (xs ys : List KeyPathElement) (h : xs.length < ys.length) :
    ((xs.zip ys).all fun q => q.1 == q.2) = true ↔ ∃ zs, zs ≠ [] ∧ ys = xs ++ zs := by
  induction xs generalizing ys with
  | nil =>
    cases ys with
    | nil => simp at h
    | cons y ys' =>
      simp only [List.zip_nil_left, List.all_nil, List.nil_append, true_iff]
      exact ⟨y :: ys', by simp, rfl⟩
  | cons x xs' ih =>
    cases ys with
    | nil => simp at h
    | cons y ys' =>
      simp only [List.zip_cons_cons, List.all_cons, Bool.and_eq_true, beq_iff_eq,
        List.cons_append, List.cons.injEq]
      constructor
      · rintro ⟨hxy, hall⟩
        obtain ⟨zs, hzs, hys⟩ := (ih ys' (by simpa using h)).mp hall
        exact ⟨zs, hzs, hxy.symm, hys⟩
      · rintro ⟨zs, hzs, hyx, hys⟩
        exact ⟨hyx.symm, (ih ys' (by simpa using h)).mpr ⟨zs, hzs, hys⟩⟩

/-- Decoding an encoded list element-wise recovers the list, given a
round-tripping codec. -/
theorem downcastList_map_eq {T : Type} (enc : T → Value) (dec : Value → Option T)
    (hcodec : ∀ v, dec (enc v) = some v) (vs : List T) :
    downcastList dec (vs.map enc) = some vs := by
  induction vs with
  | nil => rfl
  | cons v vs ih => simp [downcastList, hcodec, ih]

/-- Writing back the element just read leaves a list unchanged. -/
theorem set_getElem_self {α : Type} (xs : List α) (i : Nat) (h : i < xs.length) :
    xs.set i xs[i] = xs := by
  induction xs generalizing i with
  | nil => simp at h
  | cons x xs ih =>
    cases i with
    | zero => simp
    | succ j => simpa using ih j (by simpa using h)

/-- Re-inserting the value already present at a key leaves the association
list unchanged. -/
theorem insertEntry_lookup_self (es : List (String × Value)) (key : String) (v : Value)
    (h : lookupEntry es key = some v) : insertEntry es key v = es := by
  induction es with
  | nil => simp [lookupEntry] at h
  | cons e es ih =>
    obtain ⟨k, w⟩ := e
    by_cases hk : (k == key) = true
    · simp [lookupEntry, hk] at h
      simp [insertEntry, hk, h]
    · simp [lookupEntry, hk] at h
      simp [insertEntry, hk, ih h]

/-- Looking up the key just inserted finds the inserted value. -/
theorem lookupEntry_insertEntry_self (es : List (String × Value)) (key : String) (w : Value) :
    lookupEntry (insertEntry es key w) key = some w := by
  induction es with
  | nil => simp [insertEntry, lookupEntry]
  | cons e es ih =>
    obtain ⟨k, u⟩ := e
    by_cases hk : (k == key) = true
    · simp [insertEntry, lookupEntry, hk]
    · simp [insertEntry, lookupEntry, hk, ih]

/-- Inserting at one key leaves every other key's lookup unchanged. -/
theorem lookupEntry_insertEntry_other (es : List (String × Value)) (key : String)
    (w : Value) (k : String) (hne : k ≠ key) :
    lookupEntry (insertEntry es key w) k = lookupEntry es k := by
  induction es with
  | nil =>
    have hkk : ¬(key == k) = true := by
      simp only [beq_iff_eq]
      exact fun h => hne h.symm
    simp [insertEntry, lookupEntry, hkk]
  | cons e es ih =>
    obtain ⟨k', u⟩ := e
    by_cases hk : (k' == key) = true
    · have : ¬(k' == k) = true := by
        simp only [beq_iff_eq] at hk ⊢
        exact fun h => hne (h ▸ hk)
      simp [insertEntry, lookupEntry, hk, this]
    · simp only [insertEntry, hk, if_false, lookupEntry]
      by_cases hk2 : (k' == k) = true
      · simp [hk2]
      · simp [hk2, ih]

/-! Claims -/

/-- Claim C3 (code bug witness): for an enum derived without direct dispatch,
a suffix consisting of exactly one `Variant` element does not return a
result: the generated code reads `keys[1]` past the end of the one-element
key slice, which in Rust is an out-of-bounds slice-index panic aborting the
whole call.  The spec's path shape for a data-less union case ("a union case
with no data ends the path at the `Variant` element") therefore cannot be
applied, contradicting "every recursive step returns a result". -/
theorem enum_unit_variant_suffix_panics :
    patchKeypath (.enm [("Empty", []), ("Full", [("0", .prim)])]) (.enm "Empty" [])
      [.Variant "Empty" .External] (.Update [] (.enm "Empty" []))
      = (.enm "Empty" [], .panicked .indexOutOfBounds) := rfl

/-- Claim C9 (counterexample): the claimed rendering of the path
`[Field "fieldA", Variant "variantB", Index 3, StringKey "key"]` as
`.fieldA.variantB[3]["key"]` is wrong: the source writes a separator dot
after every non-final `Field`/`Variant` element, even when a bracketed
element follows. -/
theorem display_no_dot_before_bracket_cex :
    (⟨[.Field "fieldA", .Variant "variantB" .External, .Index 3, .StringKey "key"]⟩ :
        KeyPathFrom Unit).display
      ≠ ".fieldA.variantB[3][\"key\"]" := by decide

/-- Claim C9 (amended): formatting an erased path renders it as a
dotted/bracketed human path where a separator dot follows every `Field` or
`Variant` element that is not last (even before a bracketed element); the
path `[Field "fieldA", Variant "variantB", Index 3, StringKey "key"]`
renders exactly as `.fieldA.variantB.[3]["key"]`. -/
theorem display_renders_dotted :
    (⟨[.Field "fieldA", .Variant "variantB" .External, .Index 3, .StringKey "key"]⟩ :
        KeyPathFrom Unit).display
      = ".fieldA.variantB.[3][\"key\"]" := rfl

/-- Claim C7: `is_subpath_of` is true iff the receiver's elements are a
strict, position-wise-equal prefix of the other path's elements; in
particular it is irreflexive, and any non-empty extension of a path is a
proper superpath of it. -/
theorem is_subpath_of_strict_containment (Root : Type) :
    (∀ a b : KeyPathFrom Root,
        a.is_subpath_of b = true ↔ ∃ zs, zs ≠ [] ∧ b.path = a.path ++ zs)
    ∧ (∀ x : KeyPathFrom Root, x.is_subpath_of x = false)
    ∧ (∀ (V W : Type) (x : KeyPath Root V) (y : KeyPath V W), y.path ≠ [] →
        x.erase.is_subpath_of (x.appending y).erase = true) := by
  have hiff : ∀ a b : KeyPathFrom Root,
      a.is_subpath_of b = true ↔ ∃ zs, zs ≠ [] ∧ b.path = a.path ++ zs := by
    intro a b
    unfold KeyPathFrom.is_subpath_of
    by_cases hle : b.path.length ≤ a.path.length
    · simp only [hle, if_true, Bool.false_eq_true, false_iff]
      rintro ⟨zs, hzs, hb⟩
      have hlen := congrArg List.length hb
      simp only [List.length_append] at hlen
      cases zs with
      | nil => exact hzs rfl
      | cons z zs' => simp at hlen; omega
    · simp only [hle, if_false]
      exact zip_all_eq_strict_front a.path b.path (Nat.lt_of_not_le hle)
  refine ⟨hiff, ?_, ?_⟩
  · intro x
    unfold KeyPathFrom.is_subpath_of
    simp
  · intro V W x y hy
    refine (hiff x.erase (x.appending y).erase).mpr ⟨y.path, hy, ?_⟩
    rfl

/-- Witness for C7 at a concrete instance. -/
theorem is_subpath_of_strict_containment_witness :
    (⟨[KeyPathElement.Field "a"]⟩ : KeyPath Unit Unit).erase.is_subpath_of
      ((⟨[KeyPathElement.Field "a"]⟩ : KeyPath Unit Unit).appending
        (⟨[KeyPathElement.Index 0]⟩ : KeyPath Unit Unit)).erase = true :=
  (is_subpath_of_strict_containment Unit).2.2 Unit Unit
    ⟨[KeyPathElement.Field "a"]⟩ ⟨[KeyPathElement.Index 0]⟩ (by decide)

/-- Claim C8: for every typed `Change` built against a sub-tree root,
erasing it to a `ChangeOf`, rebasing onto a base path, and downcasting to
the original payload type succeeds and reproduces the original typed
payload together with a path equal to `append(base, original_path)`;
rebasing itself prepends the base's elements and leaves the payload
untouched (stated as: the rebased erased change is the erasure of the
original change with the appended path). -/
theorem rebase_then_downcast_roundtrip (Base Root T : Type)
    (enc : T → Value) (dec : Value → Option T)
    (hcodec : ∀ v, dec (enc v) = some v) (base : KeyPath Base Root) :
    (∀ (kp : KeyPath Root T) (v : T),
        ((Change.Update kp v).toChangeOf enc).rebase base
            = (Change.Update (base.appending kp) v).toChangeOf enc
        ∧ (((Change.Update kp v).toChangeOf enc).rebase base).downcast dec
            = some (Change.Update (base.appending kp) v))
    ∧ (∀ (kp : KeyPath Root (List T)) (vs : List T) (s r : Nat),
        ((Change.Splice kp vs s r).toChangeOf enc).rebase base
            = (Change.Splice (base.appending kp) vs s r).toChangeOf enc
        ∧ (((Change.Splice kp vs s r).toChangeOf enc).rebase base).downcast dec
            = some (Change.Splice (base.appending kp) vs s r)) := by
  constructor
  · intro kp v
    constructor
    · rfl
    · simp [Change.toChangeOf, ChangeOf.rebase, ChangeOf.downcast, hcodec,
        KeyPath.erase, KeyPathFrom.prepending, KeyPath.appending, KeyPathFrom.downcast]
  · intro kp vs s r
    constructor
    · rfl
    · simp [Change.toChangeOf, ChangeOf.rebase, ChangeOf.downcast,
        downcastList_map_eq enc dec hcodec,
        KeyPath.erase, KeyPathFrom.prepending, KeyPath.appending, KeyPathFrom.downcast]

/-- Witness for C8 at a concrete instance. -/
theorem rebase_then_downcast_roundtrip_witness :
    (((Change.Update (⟨[KeyPathElement.Field "a"]⟩ : KeyPath Unit Int) (3 : Int)).toChangeOf
        Value.prim).rebase (⟨[KeyPathElement.Field "thing"]⟩ : KeyPath Unit Unit)).downcast
      (fun w => match w with | .prim n => some n | _ => none)
      = some (Change.Update
          ((⟨[KeyPathElement.Field "thing"]⟩ : KeyPath Unit Unit).appending
            (⟨[KeyPathElement.Field "a"]⟩ : KeyPath Unit Int)) (3 : Int)) :=
  ((rebase_then_downcast_roundtrip Unit Unit Int Value.prim
      (fun w => match w with | .prim n => some n | _ => none)
      (fun _ => rfl) ⟨[KeyPathElement.Field "thing"]⟩).1
    ⟨[KeyPathElement.Field "a"]⟩ 3).2

/-- Claim C10: `apply_change` forwards the change's path elements and patch
to `patch_keypath`, panics via `expect` whenever `patch_keypath` returns any
`KeyPathError`, and never surfaces the typed error to its caller. -/
theorem apply_change_panics_on_error (Root : Type) (t : Ty) (v : Value)
    (change : ChangeOf Root) :
    (apply_change t v change).1 = (patchKeypath t v change.key_path.path change.as_patch).1
    ∧ ((patchKeypath t v change.key_path.path change.as_patch).2 = .ok →
        (apply_change t v change).2 = .ok)
    ∧ (∀ e, (patchKeypath t v change.key_path.path change.as_patch).2 = .err e →
        (apply_change t v change).2 = .panicked .expectFailure)
    ∧ (∀ e, (apply_change t v change).2 ≠ .err e) := by
  rcases hr : patchKeypath t v change.key_path.path change.as_patch with ⟨v', o⟩
  cases o <;> simp [apply_change, hr]

/-- Witness for C10 at a concrete instance: a failing patch makes
`apply_change` panic rather than return the `KeyPathError`. -/
theorem apply_change_panics_on_error_witness :
    (apply_change .prim (.prim 0)
        (ChangeOf.Update ⟨[KeyPathElement.Field "nope"]⟩ (.prim 1) : ChangeOf Unit)).2
      = .panicked .expectFailure :=
  (apply_change_panics_on_error Unit .prim (.prim 0)
      (ChangeOf.Update ⟨[KeyPathElement.Field "nope"]⟩ (.prim 1))).2.2.1
    .CannotMutatePrimitiveChildren rfl

/-- Claim C2: sequence bounds are checked at apply time.  A `Splice` whose
`start + replace` exceeds the current length, and an `Index` element whose
position is out of bounds, both abort the apply call with an
index-out-of-range failure (in Rust the `Vec::splice` range check and the
`Vec` index panic) before any element is touched — never undefined
behaviour, never a successful mutation. -/
theorem vec_bounds_checked :
    (∀ (et : Ty) (xs w : List Value) (kp : List KeyPathElement) (s r : Nat),
        decodeList et w = true → xs.length < s + r →
        patchKeypath (.vec et) (.vec xs) [] (.Splice kp w s r)
          = (.vec xs, .panicked .indexOutOfBounds))
    ∧ (∀ (et : Ty) (xs : List Value) (k : Nat) (rest : List KeyPathElement) (p : Patch),
        xs.length ≤ k →
        patchKeypath (.vec et) (.vec xs) (.Index k :: rest) p
          = (.vec xs, .panicked .indexOutOfBounds)) := by
  constructor
  · intro et xs w kp s r hdec hlen
    simp only [patchKeypath, hdec, if_true]
    rw [if_neg (by omega)]
  · intro et xs k rest p hk
    simp only [patchKeypath]
    rw [dif_neg (by omega)]

/-- Witness for C2 at concrete instances. -/
theorem vec_bounds_checked_witness :
    patchKeypath (.vec .prim) (.vec [.prim 1, .prim 2]) []
        (.Splice [] [.prim 9] 2 1)
      = (.vec [.prim 1, .prim 2], .panicked .indexOutOfBounds)
    ∧ patchKeypath (.vec .prim) (.vec [.prim 1, .prim 2])
        [.Index 2] (.Update [] (.prim 9))
      = (.vec [.prim 1, .prim 2], .panicked .indexOutOfBounds) :=
  ⟨vec_bounds_checked.1 .prim [.prim 1, .prim 2] [.prim 9] [] 2 1 rfl (by decide),
   vec_bounds_checked.2 .prim [.prim 1, .prim 2] 2 [] (.Update [] (.prim 9)) (by decide)⟩

/-- Claim C4: splice correctness on a vector with an empty suffix — each
payload value is decoded as the element type, then `replace` elements
beginning at `start` are removed and the decoded elements inserted there,
preserving the order of untouched elements; with the three concrete
examples from the spec on `[1,2,3,4,5]`. -/
theorem splice_semantics :
    (∀ (et : Ty) (xs w : List Value) (kp : List KeyPathElement) (s r : Nat),
        decodeList et w = true → s + r ≤ xs.length →
        patchKeypath (.vec et) (.vec xs) [] (.Splice kp w s r)
          = (.vec (xs.take s ++ w ++ xs.drop (s + r)), .ok))
    ∧ patchKeypath (.vec .prim)
        (.vec [.prim 1, .prim 2, .prim 3, .prim 4, .prim 5]) []
        (.Splice [] [.prim 10, .prim 11] 1 2)
        = (.vec [.prim 1, .prim 10, .prim 11, .prim 4, .prim 5], .ok)
    ∧ patchKeypath (.vec .prim)
        (.vec [.prim 1, .prim 2, .prim 3, .prim 4, .prim 5]) []
        (.Splice [] [] 0 1)
        = (.vec [.prim 2, .prim 3, .prim 4, .prim 5], .ok)
    ∧ patchKeypath (.vec .prim)
        (.vec [.prim 1, .prim 2, .prim 3, .prim 4, .prim 5]) []
        (.Splice [] [.prim 9] 5 0)
        = (.vec [.prim 1, .prim 2, .prim 3, .prim 4, .prim 5, .prim 9], .ok) := by
  refine ⟨?_, rfl, rfl, rfl⟩
  intro et xs w kp s r hdec hlen
  simp only [patchKeypath, hdec, if_true]
  rw [if_pos hlen]

/-- Witness for C4's general clause at a concrete instance. -/
theorem splice_semantics_witness :
    patchKeypath (.vec .prim) (.vec [.prim 7, .prim 8]) []
        (.Splice [] [.prim 9] 1 1)
      = (.vec [.prim 7, .prim 9], .ok) :=
  splice_semantics.1 .prim [.prim 7, .prim 8] [.prim 9] [] 1 1 rfl (by decide)

/-- Claim C5: map upsert.  When the `StringKey` element is last and the
patch is `Update`, the decoded value is inserted-or-replaced at that key
(the key need not pre-exist; other keys are untouched).  In every other
non-empty-suffix case the key must already exist — `UnknownStringKey` if it
does not — and the engine recurses into the existing value with the
remaining suffix. -/
theorem map_upsert_semantics :
    (∀ (vt : Ty) (es : List (String × Value)) (key : String)
        (kp : List KeyPathElement) (w : Value), decode vt w = true →
        patchKeypath (.map vt) (.map es) [.StringKey key] (.Update kp w)
          = (.map (insertEntry es key w), .ok))
    ∧ (∀ (es : List (String × Value)) (key : String) (w : Value),
        lookupEntry (insertEntry es key w) key = some w
        ∧ ∀ k, k ≠ key → lookupEntry (insertEntry es key w) k = lookupEntry es k)
    ∧ (∀ (vt : Ty) (es : List (String × Value)) (key : String)
        (rest : List KeyPathElement) (p : Patch),
        (rest ≠ [] ∨ p.isUpdate = false) → lookupEntry es key = none →
        patchKeypath (.map vt) (.map es) (.StringKey key :: rest) p
          = (.map es, .err (.UnknownStringKey key)))
    ∧ (∀ (vt : Ty) (es : List (String × Value)) (key : String)
        (rest : List KeyPathElement) (p : Patch) (v : Value),
        (rest ≠ [] ∨ p.isUpdate = false) → lookupEntry es key = some v →
        patchKeypath (.map vt) (.map es) (.StringKey key :: rest) p
          = (.map (insertEntry es key (patchKeypath vt v rest p).1),
              (patchKeypath vt v rest p).2)) := by
  refine ⟨?_, ?_, ?_, ?_⟩
  · intro vt es key kp w hdec
    simp [patchKeypath, hdec]
  · intro es key w
    exact ⟨lookupEntry_insertEntry_self es key w,
      fun k hk => lookupEntry_insertEntry_other es key w k hk⟩
  · intro vt es key rest p hshape hlook
    cases rest with
    | nil =>
      cases p with
      | Update kp w => simp [Patch.isUpdate] at hshape
      | Splice kp w s r => simp [patchKeypath, hlook]
    | cons k1 rest' => cases p <;> simp [patchKeypath, hlook]
  · intro vt es key rest p v hshape hlook
    cases rest with
    | nil =>
      cases p with
      | Update kp w => simp [Patch.isUpdate] at hshape
      | Splice kp w s r => simp [patchKeypath, hlook]
    | cons k1 rest' => cases p <;> simp [patchKeypath, hlook]

/-- Witness for C5 at concrete instances: an upsert at an absent key, and an
`UnknownStringKey` error for a deeper suffix at an absent key. -/
theorem map_upsert_semantics_witness :
    patchKeypath (.map .prim) (.map [("a", .prim 1)]) [.StringKey "b"]
        (.Update [] (.prim 7))
      = (.map (insertEntry [("a", .prim 1)] "b" (.prim 7)), .ok)
    ∧ patchKeypath (.map .prim) (.map [("a", .prim 1)])
        [.StringKey "b", .Field "x"] (.Update [] (.prim 7))
      = (.map [("a", .prim 1)], .err (.UnknownStringKey "b")) :=
  ⟨map_upsert_semantics.1 .prim [("a", .prim 1)] "b" [] (.prim 7) rfl,
   map_upsert_semantics.2.2.1 .prim [("a", .prim 1)] "b" [.Field "x"]
     (.Update [] (.prim 7)) (Or.inl (by simp)) rfl⟩

/-- Claim C6: optional dispatch.  A non-empty suffix on an absent value is
`CannotMutateNone`; on a present value the engine recurses into the held
value with the same suffix (no element consumed); an empty suffix with
`Update` replaces the option with the decoded `Option` payload (possibly
absent, clearing it); an empty suffix with `Splice` is an error. -/
theorem option_dispatch :
    (∀ (it : Ty) (k : KeyPathElement) (rest : List KeyPathElement) (p : Patch),
        patchKeypath (.opt it) (.opt none) (k :: rest) p
          = (.opt none, .err .CannotMutateNone))
    ∧ (∀ (it : Ty) (inner : Value) (k : KeyPathElement) (rest : List KeyPathElement)
        (p : Patch),
        patchKeypath (.opt it) (.opt (some inner)) (k :: rest) p
          = (.opt (some (patchKeypath it inner (k :: rest) p).1),
              (patchKeypath it inner (k :: rest) p).2))
    ∧ (∀ (it : Ty) (o : Option Value) (kp : List KeyPathElement) (w : Value),
        decode (.opt it) w = true →
        patchKeypath (.opt it) (.opt o) [] (.Update kp w) = (w, .ok))
    ∧ patchKeypath (.opt .prim) (.opt (some (.prim 1))) [] (.Update [] (.opt none))
        = (.opt none, .ok)
    ∧ (∀ (it : Ty) (o : Option Value) (kp : List KeyPathElement) (w : List Value)
        (s r : Nat),
        patchKeypath (.opt it) (.opt o) [] (.Splice kp w s r)
          = (.opt o, .err .CannotSpliceType)) := by
  refine ⟨?_, ?_, ?_, rfl, ?_⟩
  · intro it k rest p
    simp [patchKeypath]
  · intro it inner k rest p
    simp [patchKeypath]
  · intro it o kp w hdec
    simp [patchKeypath, hdec]
  · intro it o kp w s r
    simp [patchKeypath]

/-- Witness for C6 at a concrete instance: addressing inside an absent
optional (clause 1) and replacing a present optional by an absent payload
(clause 3, clearing). -/
theorem option_dispatch_witness :
    patchKeypath (.opt .prim) (.opt none) [.Field "x"] (.Update [] (.prim 0))
      = (.opt none, .err .CannotMutateNone)
    ∧ patchKeypath (.opt .prim) (.opt (some (.prim 3))) [] (.Update [] (.opt none))
      = (.opt none, .ok) :=
  ⟨option_dispatch.1 .prim (.Field "x") [] (.Update [] (.prim 0)),
   option_dispatch.2.2.1 .prim (some (.prim 3)) [] (.opt none) rfl⟩

/-- Atomicity, proved simultaneously for the engine and its three helpers by
strong induction on the size of the type-descriptor argument, which strictly
decreases at every recursive call. -/
theorem patch_error_unchanged_aux :
    ∀ n : Nat,
      (∀ (t : Ty) (v : Value) (keys : List KeyPathElement) (p : Patch)
          (v' : Value) (e : KeyPathError), sizeOf t ≤ n →
          patchKeypath t v keys p = (v', .err e) → v' = v)
      ∧ (∀ (vars : List (String × List (String × Ty))) (cur : String)
          (curFs : List (String × Value)) (vn fn : String)
          (ks : List KeyPathElement) (p : Patch)
          (fs' : List (String × Value)) (e : KeyPathError), sizeOf vars ≤ n →
          patchVariants vars cur curFs vn fn ks p = (fs', .err e) → fs' = curFs)
      ∧ (∀ (tys : List (String × Ty)) (fs : List (String × Value)) (vn fn : String)
          (rest : List KeyPathElement) (p : Patch)
          (fs' : List (String × Value)) (e : KeyPathError), sizeOf tys ≤ n →
          patchEnumFields tys fs vn fn rest p = (fs', .err e) → fs' = fs)
      ∧ (∀ (tys : List (String × Ty)) (fs : List (String × Value)) (key : String)
          (rest : List KeyPathElement) (p : Patch)
          (fs' : List (String × Value)) (e : KeyPathError), sizeOf tys ≤ n →
          patchStructFields tys fs key rest p = (fs', .err e) → fs' = fs) := by
  intro n
  induction n using Nat.strong_induction_on with
  | _ n ih =>
  refine ⟨?_, ?_, ?_, ?_⟩
  · -- patchKeypath
    intro t v keys p v' e hsz h
    cases t with
    | prim =>
      cases keys with
      | nil =>
        cases p with
        | Splice kp w s r =>
          simp [patchKeypath] at h
          exact h.1.symm
        | Update kp w =>
          simp [patchKeypath] at h
          split at h
          · simp at h
          · simp at h
            exact h.1.symm
      | cons k rest =>
        simp [patchKeypath] at h
        exact h.1.symm
    | vec et =>
      cases v with
      | vec xs =>
        cases keys with
        | nil =>
          cases p with
          | Splice kp w s r =>
            simp [patchKeypath] at h
            split at h
            · split at h <;> simp at h
            · simp at h
              exact h.1.symm
          | Update kp w =>
            simp [patchKeypath] at h
            split at h
            · simp at h
            · simp at h
              exact h.1.symm
        | cons k rest =>
          cases k with
          | Index key =>
            simp [patchKeypath] at h
            split at h
            · rename_i hkey
              rcases hr : patchKeypath et xs[key] rest p with ⟨rv, ro⟩
              rw [hr] at h
              simp at h
              have hlt : sizeOf et < n := by simp at hsz; omega
              have hrv : rv = xs[key] :=
                (ih (sizeOf et) hlt).1 et xs[key] rest p rv e (le_refl _)
                  (by rw [hr, h.2])
              rw [← h.1, hrv, set_getElem_self xs key hkey]
            · simp at h
          | Field key => simp [patchKeypath] at h; exact h.1.symm
          | Variant key tag => simp [patchKeypath] at h; exact h.1.symm
          | StringKey key => simp [patchKeypath] at h; exact h.1.symm
      | prim m => simp [patchKeypath] at h
      | map es => simp [patchKeypath] at h
      | opt o => simp [patchKeypath] at h
      | strukt fs => simp [patchKeypath] at h
      | enm c cfs => simp [patchKeypath] at h
    | map vt =>
      cases v with
      | map es =>
        cases keys with
        | nil =>
          cases p with
          | Splice kp w s r =>
            simp [patchKeypath] at h
            exact h.1.symm
          | Update kp w =>
            simp [patchKeypath] at h
            split at h
            · simp at h
            · simp at h
              exact h.1.symm
        | cons k rest =>
          cases k with
          | StringKey key =>
            simp only [patchKeypath] at h
            split at h
            · -- last element and Update: upsert
              split at h <;> simp at h
              exact h.1.symm
            · -- fallthrough: lookup and recurse
              split at h
              · rename_i v0 hlook
                rcases hr : patchKeypath vt v0 rest p with ⟨rv, ro⟩
                rw [hr] at h
                simp at h
                have hlt : sizeOf vt < n := by simp at hsz; omega
                have hrv : rv = v0 :=
                  (ih (sizeOf vt) hlt).1 vt v0 rest p rv e (le_refl _)
                    (by rw [hr, h.2])
                rw [← h.1, hrv, insertEntry_lookup_self es key v0 hlook]
              · simp at h
                exact h.1.symm
          | Index key => simp [patchKeypath] at h; exact h.1.symm
          | Field key => simp [patchKeypath] at h; exact h.1.symm
          | Variant key tag => simp [patchKeypath] at h; exact h.1.symm
      | prim m => simp [patchKeypath] at h
      | vec xs => simp [patchKeypath] at h
      | opt o => simp [patchKeypath] at h
      | strukt fs => simp [patchKeypath] at h
      | enm c cfs => simp [patchKeypath] at h
    | opt it =>
      cases v with
      | opt o =>
        cases keys with
        | nil =>
          cases p with
          | Splice kp w s r =>
            simp [patchKeypath] at h
            exact h.1.symm
          | Update kp w =>
            simp [patchKeypath] at h
            split at h
            · simp at h
            · simp at h
              exact h.1.symm
        | cons k rest =>
          cases o with
          | some inner =>
            simp [patchKeypath] at h
            rcases hr : patchKeypath it inner (k :: rest) p with ⟨rv, ro⟩
            rw [hr] at h
            simp at h
            have hlt : sizeOf it < n := by simp at hsz; omega
            have hrv : rv = inner :=
              (ih (sizeOf it) hlt).1 it inner (k :: rest) p rv e (le_refl _)
                (by rw [hr, h.2])
            rw [← h.1, hrv]
          | none =>
            simp [patchKeypath] at h
            exact h.1.symm
      | prim m => simp [patchKeypath] at h
      | vec xs => simp [patchKeypath] at h
      | map es => simp [patchKeypath] at h
      | strukt fs => simp [patchKeypath] at h
      | enm c cfs => simp [patchKeypath] at h
    | strukt fts =>
      cases v with
      | strukt fs =>
        cases keys with
        | nil =>
          cases p with
          | Splice kp w s r =>
            simp [patchKeypath] at h
            exact h.1.symm
          | Update kp w =>
            simp [patchKeypath] at h
            split at h
            · simp at h
            · simp at h
              exact h.1.symm
        | cons k rest =>
          cases k with
          | Field key =>
            simp [patchKeypath] at h
            rcases hr : patchStructFields fts fs key rest p with ⟨rfs, ro⟩
            rw [hr] at h
            simp at h
            have hlt : sizeOf fts < n := by simp at hsz; omega
            have hrfs : rfs = fs :=
              (ih (sizeOf fts) hlt).2.2.2 fts fs key rest p rfs e (le_refl _)
                (by rw [hr, h.2])
            rw [← h.1, hrfs]
          | Index key => simp [patchKeypath] at h; exact h.1.symm
          | Variant key tag => simp [patchKeypath] at h; exact h.1.symm
          | StringKey key => simp [patchKeypath] at h; exact h.1.symm
      | prim m => simp [patchKeypath] at h
      | vec xs => simp [patchKeypath] at h
      | map es => simp [patchKeypath] at h
      | opt o => simp [patchKeypath] at h
      | enm c cfs => simp [patchKeypath] at h
    | enm vars =>
      cases v with
      | enm cur curFs =>
        cases keys with
        | nil =>
          cases p with
          | Splice kp w s r =>
            simp [patchKeypath] at h
            exact h.1.symm
          | Update kp w =>
            simp [patchKeypath] at h
            split at h
            · simp at h
            · simp at h
              exact h.1.symm
        | cons k0 krest =>
          cases k0 with
          | Variant variantName tag =>
            cases krest with
            | nil => simp [patchKeypath] at h
            | cons k1 krest2 =>
              cases k1 with
              | Field fieldName =>
                simp [patchKeypath] at h
                rcases hr : patchVariants vars cur curFs variantName fieldName krest2 p
                  with ⟨rfs, ro⟩
                rw [hr] at h
                simp at h
                have hlt : sizeOf vars < n := by simp at hsz; omega
                have hrfs : rfs = curFs :=
                  (ih (sizeOf vars) hlt).2.1 vars cur curFs variantName fieldName
                    krest2 p rfs e (le_refl _) (by rw [hr, h.2])
                rw [← h.1, hrfs]
              | Index key => simp [patchKeypath] at h; exact h.1.symm
              | Variant key tag2 => simp [patchKeypath] at h; exact h.1.symm
              | StringKey key => simp [patchKeypath] at h; exact h.1.symm
          | Field key => simp [patchKeypath] at h; exact h.1.symm
          | Index key => simp [patchKeypath] at h; exact h.1.symm
          | StringKey key => simp [patchKeypath] at h; exact h.1.symm
      | prim m => simp [patchKeypath] at h
      | vec xs => simp [patchKeypath] at h
      | map es => simp [patchKeypath] at h
      | opt o => simp [patchKeypath] at h
      | strukt fs => simp [patchKeypath] at h
  · -- patchVariants
    intro vars cur curFs vn fn ks p fs' e hsz h
    cases vars with
    | nil => simp [patchVariants] at h
    | cons hd restVars =>
      obtain ⟨n0, fts⟩ := hd
      simp only [patchVariants] at h
      split at h
      · split at h
        · simp at h
          exact h.1.symm
        · split at h
          · have hlt : sizeOf fts < n := by simp at hsz; omega
            exact (ih (sizeOf fts) hlt).2.2.1 fts curFs vn fn ks p fs' e (le_refl _) h
          · simp at h
            exact h.1.symm
      · have hlt : sizeOf restVars < n := by simp at hsz; omega
        exact (ih (sizeOf restVars) hlt).2.1 restVars cur curFs vn fn ks p fs' e
          (le_refl _) h
  · -- patchEnumFields
    intro tys fs vn fn rest p fs' e hsz h
    cases tys with
    | nil =>
      simp [patchEnumFields] at h
      exact h.1.symm
    | cons hd ts =>
      obtain ⟨n0, t⟩ := hd
      cases fs with
      | nil => simp [patchEnumFields] at h
      | cons hf fs0 =>
        obtain ⟨m, v⟩ := hf
        simp only [patchEnumFields] at h
        split at h
        · split at h
          · rcases hr : patchKeypath t v rest p with ⟨rv, ro⟩
            rw [hr] at h
            simp at h
            have hlt : sizeOf t < n := by simp at hsz; omega
            have hrv : rv = v :=
              (ih (sizeOf t) hlt).1 t v rest p rv e (le_refl _) (by rw [hr, h.2])
            rw [← h.1, hrv]
          · simp at h
        · rcases hr : patchEnumFields ts fs0 vn fn rest p with ⟨rfs, ro⟩
          rw [hr] at h
          simp at h
          have hlt : sizeOf ts < n := by simp at hsz; omega
          have hrfs : rfs = fs0 :=
            (ih (sizeOf ts) hlt).2.2.1 ts fs0 vn fn rest p rfs e (le_refl _)
              (by rw [hr, h.2])
          rw [← h.1, hrfs]
  · -- patchStructFields
    intro tys fs key rest p fs' e hsz h
    cases tys with
    | nil =>
      simp [patchStructFields] at h
      exact h.1.symm
    | cons hd ts =>
      obtain ⟨n0, t⟩ := hd
      cases fs with
      | nil => simp [patchStructFields] at h
      | cons hf fs0 =>
        obtain ⟨m, v⟩ := hf
        simp only [patchStructFields] at h
        split at h
        · split at h
          · rcases hr : patchKeypath t v rest p with ⟨rv, ro⟩
            rw [hr] at h
            simp at h
            have hlt : sizeOf t < n := by simp at hsz; omega
            have hrv : rv = v :=
              (ih (sizeOf t) hlt).1 t v rest p rv e (le_refl _) (by rw [hr, h.2])
            rw [← h.1, hrv]
          · simp at h
        · rcases hr : patchStructFields ts fs0 key rest p with ⟨rfs, ro⟩
          rw [hr] at h
          simp at h
          have hlt : sizeOf ts < n := by simp at hsz; omega
          have hrfs : rfs = fs0 :=
            (ih (sizeOf ts) hlt).2.2.2 ts fs0 key rest p rfs e (le_refl _)
              (by rw [hr, h.2])
          rw [← h.1, hrfs]

/-- Claim C1: atomicity of apply.  For every value tree, path-element suffix
and patch, if `patch_keypath` returns any `KeyPathError` (including
`UnknownVariantOrField` on a runtime-case mismatch), the tree after the call
is exactly the tree before it — no node is partially or fully mutated. -/
theorem patch_error_leaves_tree_unchanged (t : Ty) (v : Value)
    (keys : List KeyPathElement) (p : Patch) (v' : Value) (e : KeyPathError)
    (h : patchKeypath t v keys p = (v', .err e)) : v' = v :=
  (patch_error_unchanged_aux (sizeOf t)).1 t v keys p v' e (le_refl _) h

/-- Witness for C1 at a concrete instance: a variant-name mismatch returns
`UnknownVariantOrField` and the enum value is returned unchanged. -/
theorem patch_error_leaves_tree_unchanged_witness :
    patchKeypath (.enm [("First", [("0", .prim)]), ("Second", [("0", .prim)])])
        (.enm "First" [("0", .prim 1)])
        [.Variant "Second" .External, .Field "0"] (.Update [] (.prim 5))
      = (.enm "First" [("0", .prim 1)],
          .err (.UnknownVariantOrField "Second" "0"))
    ∧ Value.enm "First" [("0", .prim 1)] = .enm "First" [("0", .prim 1)] :=
  ⟨rfl,
   patch_error_leaves_tree_unchanged
     (.enm [("First", [("0", .prim)]), ("Second", [("0", .prim)])])
     (.enm "First" [("0", .prim 1)])
     [.Variant "Second" .External, .Field "0"] (.Update [] (.prim 5))
     (.enm "First" [("0", .prim 1)]) (.UnknownVariantOrField "Second" "0") rfl⟩

end Pathogen
